import Mathlib

/-!
Verification of the Shibari School admin front-end core logic:
the related-articles slot filler (`currentRelatedArticles`) and the
shopping-cart reducer (`addToCart` / `removeFromCart` / `updateCartQuantity`).
The definitions below are a shallow embedding of the TypeScript source.
-/

namespace ShibariApp

/-- An article record.  Only the fields the slot filler touches are kept:
the identity `id` and the display fields used by the sentinel placeholder. -/
structure Article where
  id : Int
  title : String
  url : String
  deriving DecidableEq, Repr

/-- The sentinel placeholder article `{ id: 0, title: 'No Article', url: '#' }`. -/
def placeholder : Article := { id := 0, title := "No Article", url := "#" }

/-- `configIds[i]` followed by the JavaScript truthiness test `if (id)`:
an out-of-range index or a hole yields `undefined` (falsy), and the number `0`
is falsy, so both are treated as an absent reference. -/
def resolvedId (configIds : List (Option Int)) (i : Nat) : Option Int :=
  match configIds.getD i none with
  | none => none
  | some v => if v = 0 then none else some v

/-- Body of the first `for` loop at one slot: if the reference is truthy,
`articles.find(a => a.id === id)`; a failed lookup leaves the slot empty. -/
def slotArticle (configIds : List (Option Int)) (articles : List Article)
    (i : Nat) : Option Article :=
  match resolvedId configIds i with
  | none => none
  | some v => articles.find? (fun a => a.id == v)

/-- First pass: the `for (let i = 0; i < 4; i++)` loop filling fixed slots,
unrolled over the four slot indices. -/
def firstPass (configIds : List (Option Int)) (articles : List Article) :
    List (Option Article) :=
  [slotArticle configIds articles 0, slotArticle configIds articles 1,
   slotArticle configIds articles 2, slotArticle configIds articles 3]

/-- The `usedIds` set after the first pass: ids of every article placed. -/
def usedIds (fp : List (Option Article)) : List Int :=
  (fp.filterMap (fun x => x)).map Article.id

/-- `articles.filter(a => !usedIds.has(a.id))`. -/
def fillerQueue (articles : List Article) (fp : List (Option Article)) :
    List Article :=
  articles.filter (fun a => !((usedIds fp).contains a.id))

/-- Second pass: each empty slot pops the next filler; once the queue is
exhausted it falls back to `articles[0] || placeholder` (the `fb` argument). -/
def secondPass (fb : Article) : List Article → List (Option Article) → List Article
  | _, [] => []
  | fillers, some a :: rest => a :: secondPass fb fillers rest
  | [], none :: rest => fb :: secondPass fb [] rest
  | f :: fs, none :: rest => f :: secondPass fb fs rest

/-- Completing a given first-pass result against an article collection. -/
def fillSlots (articles : List Article) (fp : List (Option Article)) :
    List Article :=
  secondPass (articles.headD placeholder) (fillerQueue articles fp) fp

/-- `currentRelatedArticles`: both passes composed.  A pure function of the
lesson's `related_articles` references and the article collection. -/
def fill (configIds : List (Option Int)) (articles : List Article) :
    List Article :=
  fillSlots articles (firstPass configIds articles)

/-- A product record; the cart reducer only inspects `id`. -/
structure Product where
  id : Int
  title : String
  price : Int
  deriving DecidableEq, Repr

/-- A cart entry: `{ product, quantity }`. -/
structure CartItem where
  product : Product
  quantity : Int
  deriving DecidableEq, Repr

/-- `addToCart`: if `prev.find(item => item.product.id === product.id)` hits,
increment that product's quantity, else append a fresh entry with quantity 1. -/
def addToCart (product : Product) (cart : List CartItem) : List CartItem :=
  match cart.find? (fun item => item.product.id == product.id) with
  | some _ =>
      cart.map (fun item =>
        if item.product.id = product.id then
          { item with quantity := item.quantity + 1 }
        else item)
  | none => cart ++ [{ product := product, quantity := 1 }]

/-- `removeFromCart`: keep every entry whose product id differs. -/
def removeFromCart (productId : Int) (cart : List CartItem) : List CartItem :=
  cart.filter (fun item => !(item.product.id == productId))

/-- `updateCartQuantity`: on the matching entry compute `newQ = quantity + delta`;
keep the entry unchanged when `newQ < 1`, otherwise store `newQ`. -/
def updateCartQuantity (productId : Int) (delta : Int) (cart : List CartItem) :
    List CartItem :=
  cart.map (fun item =>
    if item.product.id = productId then
      let newQ := item.quantity + delta
      if newQ < 1 then item else { item with quantity := newQ }
    else item)

/-- The cart operations a user can trigger. -/
inductive CartOp where
  | add (product : Product)
  | remove (productId : Int)
  | setQuantityDelta (productId : Int) (delta : Int)

/-- Dispatch one operation against a cart state. -/
def applyOp (cart : List CartItem) : CartOp → List CartItem
  | .add p => addToCart p cart
  | .remove pid => removeFromCart pid cart
  | .setQuantityDelta pid d => updateCartQuantity pid d cart

/-- Run a sequence of operations starting from the empty cart. -/
def applyOps (ops : List CartOp) : List CartItem :=
  ops.foldl applyOp []

/-- The cart invariant: every quantity is at least 1 and product ids are
pairwise distinct. -/
def CartInv (cart : List CartItem) : Prop :=
  (∀ item ∈ cart, 1 ≤ item.quantity) ∧
    cart.Pairwise (fun x y => x.product.id ≠ y.product.id)

/-! ### Helper lemmas -/

theorem secondPass_length (fb : Article) (fillers : List Article)
    (fp : List (Option Article)) :
    (secondPass fb fillers fp).length = fp.length := by
  induction fp generalizing fillers with
  | nil => simp [secondPass]
  | cons o rest ih =>
      cases o with
      | some a => simp [secondPass, ih]
      | none => cases fillers <;> simp [secondPass, ih]

theorem secondPass_cons_none (fb : Article) (fillers : List Article)
    (rest : List (Option Article)) :
    secondPass fb fillers (none :: rest) =
      fillers.headD fb :: secondPass fb (fillers.drop 1) rest := by
  cases fillers <;> rfl

theorem secondPass_getElem_some (fb : Article) (fillers : List Article)
    (fp : List (Option Article)) (i : Nat) (a : Article)
    (h : fp[i]? = some (some a)) :
    (secondPass fb fillers fp)[i]? = some a := by
  induction fp generalizing fillers i with
  | nil => simp at h
  | cons o rest ih =>
      cases i with
      | zero =>
          simp at h
          subst h
          cases fillers <;> simp [secondPass]
      | succ i =>
          simp only [List.getElem?_cons_succ] at h
          cases o with
          | some b => simpa [secondPass] using ih fillers i h
          | none => simpa [secondPass_cons_none] using ih (fillers.drop 1) i h

theorem secondPass_getElem_none (fb : Article) (fillers : List Article)
    (fp : List (Option Article)) (i : Nat)
    (h : fp[i]? = some none) :
    (secondPass fb fillers fp)[i]? =
      some ((fillers.drop ((fp.take i).countP (fun o => o.isNone))).headD fb) := by
  induction fp generalizing fillers i with
  | nil => simp at h
  | cons o rest ih =>
      cases i with
      | zero =>
          simp at h
          subst h
          cases fillers <;> simp [secondPass]
      | succ i =>
          simp only [List.getElem?_cons_succ] at h
          cases o with
          | some b =>
              simpa [secondPass, List.countP_cons] using ih fillers i h
          | none =>
              rw [secondPass_cons_none]
              simp only [List.getElem?_cons_succ, List.take_succ_cons,
                List.countP_cons, Option.isNone_none]
              rw [ih (fillers.drop 1) i h, List.drop_drop]
              simp [Nat.add_comm]

theorem slotArticle_nil (configIds : List (Option Int)) (i : Nat) :
    slotArticle configIds [] i = none := by
  unfold slotArticle
  cases resolvedId configIds i <;> simp

theorem firstPass_getElem (configIds : List (Option Int))
    (articles : List Article) (i : Nat) (hi : i < 4) :
    (firstPass configIds articles)[i]? = some (slotArticle configIds articles i) := by
  interval_cases i <;> rfl

/-- Over a collection with pairwise-distinct ids, looking up the id of a member
finds exactly that member. -/
theorem find?_id_of_mem (articles : List Article) (a : Article)
    (huniq : articles.Pairwise (fun x y => x.id ≠ y.id)) (hmem : a ∈ articles) :
    articles.find? (fun x => x.id == a.id) = some a := by
  induction articles with
  | nil => simp at hmem
  | cons b t ih =>
      rcases List.pairwise_cons.mp huniq with ⟨hb, ht⟩
      rcases List.mem_cons.mp hmem with h | h
      · subst h
        simp [List.find?]
      · have hne : ¬(b.id == a.id) = true := by
          simp only [beq_iff_eq]
          exact hb a h
        simp only [List.find?, hne]
        simp only [Bool.false_eq_true, if_false] at *
        exact ih ht h

/-- Removing the one member with a given id from a pairwise-unique collection
shortens it by exactly one. -/
theorem filter_ne_id_length (articles : List Article) (a : Article)
    (huniq : articles.Pairwise (fun x y => x.id ≠ y.id)) (hmem : a ∈ articles) :
    (articles.filter (fun x => !(x.id == a.id))).length + 1 = articles.length := by
  induction articles with
  | nil => simp at hmem
  | cons b t ih =>
      rcases List.pairwise_cons.mp huniq with ⟨hb, ht⟩
      rcases List.mem_cons.mp hmem with h | h
      · subst h
        have hall : t.filter (fun x => !(x.id == a.id)) = t := by
          apply List.filter_eq_self.mpr
          intro x hx
          simp only [Bool.not_eq_eq_eq_not, Bool.not_true, beq_eq_false_iff_ne,
            ne_eq]
          intro hxe
          exact hb x hx hxe.symm
        simp [List.filter_cons, hall]
      · have hbne : (!(b.id == a.id)) = true := by
          simp only [Bool.not_eq_eq_eq_not, Bool.not_true, beq_eq_false_iff_ne,
            ne_eq]
          exact hb a h
        simp only [List.filter_cons, hbne, if_true, List.length_cons]
        rw [← ih ht h]

theorem secondPass_all_none (fb : Article) (fillers : List Article) (n : Nat)
    (h : n ≤ fillers.length) :
    secondPass fb fillers (List.replicate n none) = fillers.take n := by
  induction n generalizing fillers with
  | zero => simp [secondPass]
  | succ n ih =>
      cases fillers with
      | nil => simp at h
      | cons f fs =>
          simp only [List.replicate_succ, secondPass, List.take_succ_cons]
          rw [ih fs (by simpa using h)]

/-! ### Claim theorems -/

/-- C2: for every preferred-id list and every article collection, the sequence
returned by `fill` has exactly 4 entries (proved without even assuming the
collection is non-empty, which implies the claim as stated). -/
theorem fill_length_four (configIds : List (Option Int)) (articles : List Article) :
    (fill configIds articles).length = 4 := by
  unfold fill fillSlots
  rw [secondPass_length]
  rfl

/-- C5: on the empty article collection, `fill` returns 4 copies of the
sentinel placeholder article (id 0, title "No Article"), whatever the
preferred-id list is. -/
theorem fill_empty_articles_placeholder (configIds : List (Option Int)) :
    fill configIds [] = List.replicate 4 placeholder := by
  unfold fill fillSlots firstPass
  rw [slotArticle_nil, slotArticle_nil, slotArticle_nil, slotArticle_nil]
  rfl

/-- C1 counterexample: with articles 1,2,3,4 and preferred ids [1, 1], the
first pass places article 1 at slot 0 AND at slot 1 (the claim says only at
slot 0); slot 1 does not receive the filler queue's head (article 2), so the
claim's predicted output is wrong at this input. -/
theorem duplicate_preferred_counterexample :
    firstPass [some 1, some 1]
        [⟨1, "A", "a"⟩, ⟨2, "B", "b"⟩, ⟨3, "C", "c"⟩, ⟨4, "D", "d"⟩] =
      [some ⟨1, "A", "a"⟩, some ⟨1, "A", "a"⟩, none, none] ∧
    fill [some 1, some 1]
        [⟨1, "A", "a"⟩, ⟨2, "B", "b"⟩, ⟨3, "C", "c"⟩, ⟨4, "D", "d"⟩] =
      [⟨1, "A", "a"⟩, ⟨1, "A", "a"⟩, ⟨2, "B", "b"⟩, ⟨3, "C", "c"⟩] ∧
    (fill [some 1, some 1]
        [⟨1, "A", "a"⟩, ⟨2, "B", "b"⟩, ⟨3, "C", "c"⟩, ⟨4, "D", "d"⟩])[1]? ≠
      some ⟨2, "B", "b"⟩ := by
  refine ⟨by decide, by decide, by decide⟩

/-- C1 (amended): when the preferred-id list resolves the same valid id `v` at
two distinct indices `i < j < 4`, the first pass performs no deduplication: the
resolved article is placed at BOTH slot `i` and slot `j` (its id is recorded as
used, so the filler queue excludes it). -/
theorem duplicate_preferred_both_slots (configIds : List (Option Int))
    (articles : List Article) (i j : Nat) (v : Int) (a : Article)
    (hij : i < j) (hj : j < 4)
    (hvi : resolvedId configIds i = some v)
    (hvj : resolvedId configIds j = some v)
    (hfind : articles.find? (fun x => x.id == v) = some a) :
    (fill configIds articles)[i]? = some a ∧
      (fill configIds articles)[j]? = some a := by
  have hi : i < 4 := Nat.lt_trans hij hj
  have hsi : slotArticle configIds articles i = some a := by
    unfold slotArticle
    rw [hvi]
    exact hfind
  have hsj : slotArticle configIds articles j = some a := by
    unfold slotArticle
    rw [hvj]
    exact hfind
  unfold fill fillSlots
  constructor
  · exact secondPass_getElem_some _ _ _ i a (by rw [firstPass_getElem _ _ i hi, hsi])
  · exact secondPass_getElem_some _ _ _ j a (by rw [firstPass_getElem _ _ j hj, hsj])

/-- C1 witness: concrete duplicated preferred id, both slots hold the article. -/
theorem duplicate_preferred_both_slots_witness :
    (fill [some 1, some 1] [⟨1, "A", "a"⟩, ⟨2, "B", "b"⟩])[0]? =
        some ⟨1, "A", "a"⟩ ∧
      (fill [some 1, some 1] [⟨1, "A", "a"⟩, ⟨2, "B", "b"⟩])[1]? =
        some ⟨1, "A", "a"⟩ :=
  duplicate_preferred_both_slots [some 1, some 1]
    [⟨1, "A", "a"⟩, ⟨2, "B", "b"⟩] 0 1 1 ⟨1, "A", "a"⟩
    (by decide) (by decide) (by decide) (by decide) (by decide)

/-- C10: a preferred entry equal to 0 is falsy in JavaScript, so the first pass
treats it as an absent reference (even though articles with id 0 may exist in
the collection, which stays universally quantified here): the slot stays empty
after the first pass, and the whole fill result is the same as if the entry
were absent. -/
theorem falsy_id_treated_absent (configIds : List (Option Int))
    (articles : List Article) (i : Nat)
    (h : configIds.getD i none = some 0) :
    slotArticle configIds articles i = none ∧
    fill configIds articles = fill (configIds.set i none) articles := by
  have hres : resolvedId configIds i = none := by
    unfold resolvedId
    rw [h]
    simp
  have hlt : i < configIds.length := by
    by_contra hge
    rw [List.getD_eq_getElem?_getD, List.getElem?_eq_none (Nat.le_of_not_lt hge)] at h
    simp at h
  have hslot : ∀ k, slotArticle (configIds.set i none) articles k =
      slotArticle configIds articles k := by
    intro k
    rcases eq_or_ne k i with hk | hk
    · subst hk
      have hres' : resolvedId (configIds.set k none) k = none := by
        unfold resolvedId
        rw [List.getD_eq_getElem?_getD, List.getElem?_set_self hlt]
        rfl
      unfold slotArticle
      rw [hres, hres']
    · have : (configIds.set i none).getD k none = configIds.getD k none := by
        rw [List.getD_eq_getElem?_getD, List.getD_eq_getElem?_getD,
          List.getElem?_set_ne (fun he => hk he.symm)]
      unfold slotArticle resolvedId
      rw [this]
  have hfp : firstPass (configIds.set i none) articles =
      firstPass configIds articles := by
    unfold firstPass
    rw [hslot 0, hslot 1, hslot 2, hslot 3]
  constructor
  · unfold slotArticle
    rw [hres]
  · unfold fill
    rw [hfp]

/-- C10 witness: preferred id 0 with an id-0 article present in the collection. -/
theorem falsy_id_treated_absent_witness :
    slotArticle [some 0] [⟨0, "Z", "z"⟩, ⟨1, "A", "a"⟩] 0 = none ∧
    fill [some 0] [⟨0, "Z", "z"⟩, ⟨1, "A", "a"⟩] =
      fill ([some 0].set 0 none) [⟨0, "Z", "z"⟩, ⟨1, "A", "a"⟩] :=
  falsy_id_treated_absent [some 0] [⟨0, "Z", "z"⟩, ⟨1, "A", "a"⟩] 0 (by decide)

/-- C6 counterexample: the claim fails for an article whose id is 0 (falsy):
with collection [id 1, id 0, id 2, id 3] (4 elements, unique ids) and preferred
list [0], slot 0 is NOT the id-0 article — the falsy reference is skipped and
slot 0 gets the first filler instead. -/
theorem slot0_zero_id_counterexample :
    (⟨0, "Z", "z"⟩ : Article) ∈
        ([⟨1, "A", "a"⟩, ⟨0, "Z", "z"⟩, ⟨2, "B", "b"⟩, ⟨3, "C", "c"⟩] :
          List Article) ∧
    4 ≤ ([⟨1, "A", "a"⟩, ⟨0, "Z", "z"⟩, ⟨2, "B", "b"⟩, ⟨3, "C", "c"⟩] :
          List Article).length ∧
    ([⟨1, "A", "a"⟩, ⟨0, "Z", "z"⟩, ⟨2, "B", "b"⟩, ⟨3, "C", "c"⟩] :
          List Article).Pairwise (fun x y => x.id ≠ y.id) ∧
    (fill [some 0]
        [⟨1, "A", "a"⟩, ⟨0, "Z", "z"⟩, ⟨2, "B", "b"⟩, ⟨3, "C", "c"⟩])[0]? ≠
      some ⟨0, "Z", "z"⟩ := by
  refine ⟨by decide, by decide, by decide, by decide⟩

/-- C6 (amended): for a collection with ≥ 4 articles and pairwise-distinct ids
and a member `a` whose id is nonzero (truthy), `fill [a.id]` puts `a` at slot 0
and `a` appears in none of the remaining slots. -/
theorem fill_single_preferred_slot0 (articles : List Article) (a : Article)
    (hlen : 4 ≤ articles.length)
    (huniq : articles.Pairwise (fun x y => x.id ≠ y.id))
    (hmem : a ∈ articles) (hne : a.id ≠ 0) :
    (fill [some a.id] articles)[0]? = some a ∧
      a ∉ (fill [some a.id] articles).drop 1 := by
  have hfind := find?_id_of_mem articles a huniq hmem
  have hs0 : slotArticle [some a.id] articles 0 = some a := by
    unfold slotArticle resolvedId
    simp only [List.getD_eq_getElem?_getD, List.getElem?_cons_zero,
      Option.getD_some, hne, if_false]
    exact hfind
  have hsk : ∀ k, slotArticle [some a.id] articles (k + 1) = none := by
    intro k
    unfold slotArticle resolvedId
    simp
  have hfp : firstPass [some a.id] articles = some a :: List.replicate 3 none := by
    unfold firstPass
    rw [hs0, hsk 0, hsk 1, hsk 2]
    rfl
  have hfq : fillerQueue articles (firstPass [some a.id] articles) =
      articles.filter (fun x => !(x.id == a.id)) := by
    rw [hfp]
    unfold fillerQueue usedIds
    apply List.filter_congr
    intro x _
    simp [beq_eq_decide]
  have hflen : (articles.filter (fun x => !(x.id == a.id))).length + 1 =
      articles.length := filter_ne_id_length articles a huniq hmem
  have hresult : fill [some a.id] articles =
      a :: (articles.filter (fun x => !(x.id == a.id))).take 3 := by
    unfold fill fillSlots
    rw [hfq, hfp]
    simp only [secondPass]
    rw [secondPass_all_none _ _ 3 (by omega)]
  rw [hresult]
  refine ⟨by simp, ?_⟩
  intro hmem3
  have : a ∈ articles.filter (fun x => !(x.id == a.id)) := by
    exact (List.take_sublist 3 _).mem (by simpa using hmem3)
  have := List.of_mem_filter this
  simp at this

/-- C6 witness: 4 distinct articles, the preferred one not at the head. -/
theorem fill_single_preferred_slot0_witness :
    (fill [some 2]
        [⟨1, "A", "a"⟩, ⟨2, "B", "b"⟩, ⟨3, "C", "c"⟩, ⟨4, "D", "d"⟩])[0]? =
        some ⟨2, "B", "b"⟩ ∧
      (⟨2, "B", "b"⟩ : Article) ∉
        (fill [some 2]
          [⟨1, "A", "a"⟩, ⟨2, "B", "b"⟩, ⟨3, "C", "c"⟩, ⟨4, "D", "d"⟩]).drop 1 :=
  fill_single_preferred_slot0
    [⟨1, "A", "a"⟩, ⟨2, "B", "b"⟩, ⟨3, "C", "c"⟩, ⟨4, "D", "d"⟩] ⟨2, "B", "b"⟩
    (by decide) (by decide) (by decide) (by decide)

/-- C7: with no resolvable preferred ids and a collection of ≥ 4 articles with
pairwise-distinct ids, `fill` returns 4 pairwise-distinct articles, all drawn
from the collection. -/
theorem fill_no_preferred_distinct (configIds : List (Option Int))
    (articles : List Article)
    (habsent : ∀ i < 4, resolvedId configIds i = none)
    (hlen : 4 ≤ articles.length)
    (huniq : articles.Pairwise (fun x y => x.id ≠ y.id)) :
    (fill configIds articles).Pairwise (fun x y => x ≠ y) ∧
      ∀ x ∈ fill configIds articles, x ∈ articles := by
  have hslot : ∀ k, k < 4 → slotArticle configIds articles k = none := by
    intro k hk
    unfold slotArticle
    rw [habsent k hk]
  have hfp : firstPass configIds articles = List.replicate 4 none := by
    unfold firstPass
    rw [hslot 0 (by omega), hslot 1 (by omega), hslot 2 (by omega),
      hslot 3 (by omega)]
    rfl
  have hfq : fillerQueue articles (firstPass configIds articles) = articles := by
    rw [hfp]
    unfold fillerQueue usedIds
    simp
  have hresult : fill configIds articles = articles.take 4 := by
    unfold fill fillSlots
    rw [hfq, hfp, secondPass_all_none _ _ 4 hlen]
  rw [hresult]
  constructor
  · exact ((huniq.sublist (List.take_sublist 4 articles)).imp
      (fun h heq => h (congrArg Article.id heq)))
  · intro x hx
    exact (List.take_sublist 4 articles).mem hx

/-- C7 witness: empty preferred list over 4 distinct articles. -/
theorem fill_no_preferred_distinct_witness :
    (fill []
        [⟨1, "A", "a"⟩, ⟨2, "B", "b"⟩, ⟨3, "C", "c"⟩, ⟨4, "D", "d"⟩]).Pairwise
        (fun x y => x ≠ y) ∧
      ∀ x ∈ fill []
          [⟨1, "A", "a"⟩, ⟨2, "B", "b"⟩, ⟨3, "C", "c"⟩, ⟨4, "D", "d"⟩],
        x ∈ ([⟨1, "A", "a"⟩, ⟨2, "B", "b"⟩, ⟨3, "C", "c"⟩, ⟨4, "D", "d"⟩] :
          List Article) :=
  fill_no_preferred_distinct []
    [⟨1, "A", "a"⟩, ⟨2, "B", "b"⟩, ⟨3, "C", "c"⟩, ⟨4, "D", "d"⟩]
    (by decide) (by decide) (by decide)

/-- C8: when slot `i` is empty after the first pass and the filler queue is
exhausted before reaching it (its length is at most the number of empty slots
with smaller index), slot `i` receives the first article of the non-empty
collection — so that article may repeat across slots. -/
theorem fill_fallback_first_article (configIds : List (Option Int))
    (articles : List Article) (i : Nat)
    (hempty : (firstPass configIds articles)[i]? = some none)
    (hexh : (fillerQueue articles (firstPass configIds articles)).length ≤
      ((firstPass configIds articles).take i).countP (fun o => o.isNone))
    (hne : articles ≠ []) :
    (fill configIds articles)[i]? = articles[0]? := by
  unfold fill fillSlots
  rw [secondPass_getElem_none _ _ _ i hempty, List.drop_eq_nil_of_le hexh]
  cases articles with
  | nil => exact absurd rfl hne
  | cons f fs => simp

/-- C8 witness: a single-article collection repeats that article in all four
slots; here slot 2 gets the fallback. -/
theorem fill_fallback_first_article_witness :
    (fill [] [⟨1, "A", "a"⟩])[2]? = ([⟨1, "A", "a"⟩] : List Article)[0]? :=
  fill_fallback_first_article [] [⟨1, "A", "a"⟩] 2
    (by decide) (by decide) (by decide)

/-- The increment branch of `addToCart` never touches the product field. -/
theorem addToCart_map_product (p : Product) (item : CartItem) :
    (if item.product.id = p.id then { item with quantity := item.quantity + 1 }
      else item).product = item.product := by
  split <;> rfl

/-- The update branch of `updateCartQuantity` never touches the product field. -/
theorem updateCartQuantity_map_product (pid delta : Int) (item : CartItem) :
    (if item.product.id = pid then
        (let newQ := item.quantity + delta
         if newQ < 1 then item else { item with quantity := newQ })
      else item).product = item.product := by
  dsimp only
  split
  · split <;> rfl
  · rfl

theorem CartInv_addToCart (p : Product) (cart : List CartItem)
    (h : CartInv cart) : CartInv (addToCart p cart) := by
  obtain ⟨hq, hu⟩ := h
  unfold addToCart
  cases hfind : cart.find? (fun item => item.product.id == p.id) with
  | some it =>
      constructor
      · intro item hmem
        rcases List.mem_map.mp hmem with ⟨y, hy, rfl⟩
        split
        · have := hq y hy
          show 1 ≤ y.quantity + 1
          omega
        · exact hq y hy
      · rw [List.pairwise_map]
        exact hu.imp (fun {a b} hab => by
          rw [addToCart_map_product, addToCart_map_product]
          exact hab)
  | none =>
      have hnone := List.find?_eq_none.mp hfind
      constructor
      · intro item hmem
        rcases List.mem_append.mp hmem with hmem | hmem
        · exact hq item hmem
        · simp only [List.mem_singleton] at hmem
          subst hmem
          exact le_refl 1
      · rw [List.pairwise_append]
        refine ⟨hu, List.pairwise_singleton _ _, ?_⟩
        intro x hx y hy
        simp only [List.mem_singleton] at hy
        subst hy
        have := hnone x hx
        simpa using this

theorem CartInv_removeFromCart (pid : Int) (cart : List CartItem)
    (h : CartInv cart) : CartInv (removeFromCart pid cart) := by
  obtain ⟨hq, hu⟩ := h
  constructor
  · intro item hmem
    exact hq item (List.mem_of_mem_filter hmem)
  · exact hu.sublist (List.filter_sublist _)

theorem CartInv_updateCartQuantity (pid delta : Int) (cart : List CartItem)
    (h : CartInv cart) : CartInv (updateCartQuantity pid delta cart) := by
  obtain ⟨hq, hu⟩ := h
  unfold updateCartQuantity
  constructor
  · intro item hmem
    rcases List.mem_map.mp hmem with ⟨y, hy, rfl⟩
    dsimp only
    split
    · split
      · exact hq y hy
      · dsimp only
        omega
    · exact hq y hy
  · rw [List.pairwise_map]
    exact hu.imp (fun {a b} hab => by
      rw [updateCartQuantity_map_product, updateCartQuantity_map_product]
      exact hab)

theorem CartInv_applyOp (cart : List CartItem) (op : CartOp)
    (h : CartInv cart) : CartInv (applyOp cart op) := by
  cases op with
  | add p => exact CartInv_addToCart p cart h
  | remove pid => exact CartInv_removeFromCart pid cart h
  | setQuantityDelta pid d => exact CartInv_updateCartQuantity pid d cart h

theorem CartInv_foldl (ops : List CartOp) :
    ∀ cart, CartInv cart → CartInv (ops.foldl applyOp cart) := by
  induction ops with
  | nil => exact fun cart h => h
  | cons op rest ih =>
      intro cart h
      exact ih (applyOp cart op) (CartInv_applyOp cart op h)

/-- C3: every cart state reachable from the empty cart by add / remove /
setQuantityDelta operations has all quantities at least 1 and pairwise-distinct
product ids. -/
theorem cart_reachable_invariant (ops : List CartOp) : CartInv (applyOps ops) :=
  CartInv_foldl ops [] ⟨fun _ h => absurd h (List.not_mem_nil _), List.Pairwise.nil⟩

/-- C4: `updateCartQuantity` is a no-op on carts lacking the product id; on a
matching entry it keeps the entry unchanged when the new quantity would drop
below 1 (never removing it — the length is always preserved) and otherwise
replaces the quantity with `quantity + delta`; in particular `add(P)` then
`setQuantityDelta(P.id, -5)` leaves P's quantity at 1. -/
theorem updateCartQuantity_spec (pid delta : Int) (cart : List CartItem) :
    ((∀ item ∈ cart, item.product.id ≠ pid) →
      updateCartQuantity pid delta cart = cart) ∧
    (∀ item ∈ cart, item.product.id = pid → item.quantity + delta < 1 →
      item ∈ updateCartQuantity pid delta cart) ∧
    (∀ item ∈ cart, item.product.id = pid → 1 ≤ item.quantity + delta →
      { item with quantity := item.quantity + delta } ∈
        updateCartQuantity pid delta cart) ∧
    (updateCartQuantity pid delta cart).length = cart.length ∧
    (∀ p : Product, updateCartQuantity p.id (-5) (addToCart p []) =
      [{ product := p, quantity := 1 }]) := by
  refine ⟨?_, ?_, ?_, ?_, ?_⟩
  · intro h
    unfold updateCartQuantity
    revert h
    induction cart with
    | nil => intro _; rfl
    | cons it rest ih =>
        intro h
        simp only [List.map_cons]
        rw [if_neg (h it (List.mem_cons_self it rest))]
        rw [ih (fun x hx => h x (List.mem_cons_of_mem it hx))]
  · intro item hmem hc hlt
    have hf : (if item.product.id = pid then
        (let newQ := item.quantity + delta
         if newQ < 1 then item else { item with quantity := newQ })
      else item) = item := by
      rw [if_pos hc]
      dsimp only
      rw [if_pos hlt]
    unfold updateCartQuantity
    exact hf ▸ List.mem_map_of_mem _ hmem
  · intro item hmem hc hge
    have hf : (if item.product.id = pid then
        (let newQ := item.quantity + delta
         if newQ < 1 then item else { item with quantity := newQ })
      else item) = { item with quantity := item.quantity + delta } := by
      rw [if_pos hc]
      dsimp only
      rw [if_neg (by omega)]
    unfold updateCartQuantity
    exact hf ▸ List.mem_map_of_mem _ hmem
  · exact List.length_map _ _
  · intro p
    simp [addToCart, updateCartQuantity]

/-- C4 witness: no-op on the empty cart, and the concrete add-then-floor run. -/
theorem updateCartQuantity_spec_witness :
    updateCartQuantity 7 3 [] = [] ∧
      updateCartQuantity 1 (-5) (addToCart ⟨1, "P", 10⟩ []) =
        [{ product := ⟨1, "P", 10⟩, quantity := 1 }] :=
  ⟨(updateCartQuantity_spec 7 3 []).1 (fun item h => absurd h (List.not_mem_nil item)),
   (updateCartQuantity_spec 1 (-5) []).2.2.2.2 ⟨1, "P", 10⟩⟩

/-- C9: `removeFromCart` is idempotent, and is the identity on carts that do
not contain the product id. -/
theorem removeFromCart_idempotent (pid : Int) (cart : List CartItem) :
    removeFromCart pid (removeFromCart pid cart) = removeFromCart pid cart ∧
      ((∀ item ∈ cart, item.product.id ≠ pid) →
        removeFromCart pid cart = cart) := by
  constructor
  · simp [removeFromCart, List.filter_filter]
  · intro h
    apply List.filter_eq_self.mpr
    intro item hmem
    simpa using h item hmem

/-- C9 witness: removing an absent product twice on a one-entry cart. -/
theorem removeFromCart_idempotent_witness :
    removeFromCart 2 (removeFromCart 2 [⟨⟨1, "P", 5⟩, 1⟩]) =
        removeFromCart 2 [⟨⟨1, "P", 5⟩, 1⟩] ∧
      removeFromCart 2 [⟨⟨1, "P", 5⟩, 1⟩] = [⟨⟨1, "P", 5⟩, 1⟩] :=
  ⟨(removeFromCart_idempotent 2 [⟨⟨1, "P", 5⟩, 1⟩]).1,
   (removeFromCart_idempotent 2 [⟨⟨1, "P", 5⟩, 1⟩]).2 (by decide)⟩

end ShibariApp
